import Mathlib

/-!
Shallow embedding of the v0 fetch pipeline
(`src/v0-setup/scripts/fetch-v0.mjs`, `version-list.mjs`, `zip-download.mjs`,
and the file classifier / content validator module), together with theorems
settling the specification claims about identity resolution, version
enumeration and selection, archive extraction safety, placeholder
validation, and the pipeline orchestrator.

JavaScript strings are modelled as Lean `String` (equivalently their
underlying `List Char`); the handful of JS string primitives the scripts
use (split, join, includes, trim, toUpperCase on ASCII, startsWith) are
translated explicitly below. The file is organised as definitions first,
theorems second.
-/

namespace V0

/-! ## Character classes and JS string primitives -/

/-- ASCII lowercase letter, the character class of the regex `[a-z]`. -/
def isAsciiLower (c : Char) : Bool := 'a' ≤ c && c ≤ 'z'

/-- ASCII uppercase letter, the character class of the regex `[A-Z]`. -/
def isAsciiUpper (c : Char) : Bool := 'A' ≤ c && c ≤ 'Z'

/-- ASCII digit, the character class of the regex `\d` / `[0-9]`. -/
def isAsciiDigit (c : Char) : Bool := '0' ≤ c && c ≤ '9'

/-- ASCII alphanumeric, the character class of the regex `[a-zA-Z0-9]`. -/
def isAsciiAlnum (c : Char) : Bool := isAsciiLower c || isAsciiUpper c || isAsciiDigit c

/-- The split of a character list at every occurrence of the separator
character, modelling the JavaScript `String.prototype.split` with a
single-character separator: `"a-b".split("-")` gives `["a","b"]`,
`"".split("-")` gives `[""]`, and `"-".split("-")` gives `["",""]`. -/
def splitOnChar (sep : Char) : List Char → List (List Char)
  | [] => [[]]
  | c :: cs =>
    if c = sep then
      [] :: splitOnChar sep cs
    else
      match splitOnChar sep cs with
      | [] => [[c]]
      | h :: t => (c :: h) :: t

/-- Joining a list of character lists with a separator character,
modelling the JavaScript `Array.prototype.join` with a one-character
separator string. -/
def intercalateChar (sep : Char) : List (List Char) → List Char
  | [] => []
  | [x] => x
  | x :: y :: rest => x ++ sep :: intercalateChar sep (y :: rest)

/-- Containment of a pattern at some position of the list, written with
`List.isPrefixOf` at every suffix. -/
def containsAt (sub : List Char) : List Char → Bool
  | [] => sub.isPrefixOf []
  | c :: cs => sub.isPrefixOf (c :: cs) || containsAt sub cs

/-- Substring containment, modelling the JavaScript
`String.prototype.includes`. -/
def jsIncludes (s sub : String) : Bool := containsAt sub.data s.data

/-- Whitespace for the JavaScript `String.prototype.trim`: space, tab,
newline, carriage return, vertical tab, form feed, no-break space, and
the byte-order mark (the members of the ECMAScript WhiteSpace and
LineTerminator productions that occur in the inputs modelled here). -/
def isJsWhitespace (c : Char) : Bool :=
  c = ' ' || c = '\t' || c = '\n' || c = '\r' || c = '\x0b' || c = '\x0c'
    || c = ' ' || c = '﻿'

/-- The JavaScript `String.prototype.trim`: strip leading and trailing
whitespace (including a byte-order mark). -/
def jsTrim (s : String) : String :=
  String.mk (((s.data.dropWhile isJsWhitespace).reverse.dropWhile isJsWhitespace).reverse)

/-- The JavaScript `String.prototype.toUpperCase` restricted to the ASCII
range, which is all the scripts compare against. -/
def toUpperAscii (s : String) : String :=
  String.mk (s.data.map Char.toUpper)

/-! ## Identity resolver (`fetch-v0.mjs`) -/

/-- The chat identity produced by the identity resolver: full slug, short
hash fragment, and derived feature name. -/
structure ChatIdentity where
  slug : String
  hashId : String
  featureName : String
deriving Repr, DecidableEq

/-- Translation of `isHashSegment` from `fetch-v0.mjs`: the segment matches
the anchored regex of at least six alphanumerics, is not entirely lowercase
letters, and is not entirely digits. -/
def isHashSegment (s : String) : Bool :=
  (decide (6 ≤ s.data.length) && s.data.all isAsciiAlnum)
    && !(decide (s.data ≠ []) && s.data.all isAsciiLower)
    && !(decide (s.data ≠ []) && s.data.all isAsciiDigit)

/-- Translation of `resolveSlug` from `fetch-v0.mjs`: split the slug on
dashes; when there are at least two segments and the last qualifies as a
hash segment, strip it into `hashId` and keep the rest as `featureName`;
otherwise all three fields are the slug itself. -/
def resolveSlug (slug : String) : ChatIdentity :=
  let parts := splitOnChar '-' slug.data
  if 1 < parts.length then
    let last := parts.getLastD []
    if isHashSegment (String.mk last) then
      ⟨slug, String.mk last, String.mk (intercalateChar '-' parts.dropLast)⟩
    else
      ⟨slug, slug, slug⟩
  else
    ⟨slug, slug, slug⟩

/-! ## Version selector (`version-list.mjs`) -/

/-- A chat version as used by the scripts: identifier, status, and
creation timestamp string (additional server fields are passed through
opaquely and are irrelevant to the properties proved here). -/
structure Version where
  id : String
  status : String
  createdAt : String
deriving Repr, DecidableEq

/-- Translation of `selectBestVersion` from `version-list.mjs`. The input
is an optional array whose elements may themselves be null, modelled as
`Option (List (Option Version))`. The function returns the first non-null
element with status completed, else the first non-null element, else the
null signal. The console progress logging of the source is a side channel
with no influence on the returned value and is omitted. -/
def selectBestVersion (versions : Option (List (Option Version))) : Option Version :=
  match versions with
  | none => none
  | some vs =>
    if vs.length = 0 then none
    else
      match vs.find? (fun ov => ov.any fun v => v.status == "completed") with
      | some (some v) => some v
      | _ =>
        match vs.find? (fun ov => ov.isSome) with
        | some (some v) => some v
        | _ => none

/-! ## Content validator (file classifier module and placeholder predicate) -/

/-- A JavaScript value as it can appear in the content field of a file
descriptor: a text string, null, undefined (absent field), or a non-text
value such as a number. -/
inductive JSVal where
  | str : String → JSVal
  | nullv : JSVal
  | undef : JSVal
  | num : Int → JSVal
deriving Repr, DecidableEq

/-- The string carried by a text value, and the empty string otherwise
(projection helper used only to state theorems about text contents). -/
def JSVal.asString : JSVal → String
  | JSVal.str s => s
  | _ => ""

/-- Modelled from the spec: the placeholder predicate of the module
`placeholder-detection.mjs` is not among the sources available here (only
its test suite is). Per the spec, content is a placeholder when it is
null, absent, or non-text, or when after trimming whitespace (and a
leading byte-order mark) it is empty or case-insensitively equal to the
literal generation-in-progress marker string GENERATING. -/
def isPlaceholderContent : JSVal → Bool
  | JSVal.str s => jsTrim s == "" || toUpperAscii (jsTrim s) == "GENERATING"
  | _ => true

/-- The warning reason for a GENERATING placeholder, from the classifier
module function `deriveReason`. -/
def reasonGenerating : String :=
  "File content is a GENERATING placeholder — generation may still be in progress"

/-- The warning reason for empty content, from the classifier module
function `deriveReason`. -/
def reasonEmpty : String := "File content is empty — skipping empty file"

/-- The generic fallback warning reason, from the classifier module
function `deriveReason`. -/
def reasonFallback : String := "File content appears to be a placeholder"

/-- Translation of `deriveReason` from the file classifier module. The
source calls `content.trim()` unconditionally, which throws a TypeError
when the content is not a string; this is modelled by the error case. -/
def deriveReason : JSVal → Except String String
  | JSVal.str s =>
    if toUpperAscii (jsTrim s) == "GENERATING" then Except.ok reasonGenerating
    else if jsTrim s == "" then Except.ok reasonEmpty
    else Except.ok reasonFallback
  | _ => Except.error "TypeError: content.trim is not a function"

/-- The value `deriveReason` computes on text content (no throw is
possible there): marker check first, then emptiness, then the fallback. -/
def reasonOfStr (s : String) : String :=
  if toUpperAscii (jsTrim s) == "GENERATING" then reasonGenerating
  else if jsTrim s == "" then reasonEmpty
  else reasonFallback

/-- A custom file as passed to the validator: name and content. -/
structure CustomFile where
  name : String
  content : JSVal
deriving Repr, DecidableEq

/-- A validation warning: file name and human-readable reason. -/
structure Warning where
  name : String
  reason : String
deriving Repr, DecidableEq

/-- Translation of `validateCustomFiles` from the file classifier module:
partition the files by the injected placeholder predicate, deriving a
warning reason for each placeholder file; an exception from
`deriveReason` (or from the predicate) propagates, aborting the whole
validation. -/
def validateCustomFiles (customFiles : List CustomFile) (isPlaceholderFn : JSVal → Bool) :
    Except String (List CustomFile × List Warning) :=
  match customFiles with
  | [] => Except.ok ([], [])
  | f :: rest =>
    if isPlaceholderFn f.content then
      match deriveReason f.content with
      | Except.error e => Except.error e
      | Except.ok reason =>
        match validateCustomFiles rest isPlaceholderFn with
        | Except.error e => Except.error e
        | Except.ok (valid, warnings) => Except.ok (valid, ⟨f.name, reason⟩ :: warnings)
    else
      match validateCustomFiles rest isPlaceholderFn with
      | Except.error e => Except.error e
      | Except.ok (valid, warnings) => Except.ok (f :: valid, warnings)

/-- A concrete file list used by the C2 witness: one GENERATING
placeholder, one empty placeholder, one real file. -/
def sampleCustomFiles : List CustomFile :=
  [⟨"a.tsx", JSVal.str "GENERATING"⟩, ⟨"b.tsx", JSVal.str ""⟩,
    ⟨"c.tsx", JSVal.str "export const x = 1;"⟩]

/-! ## Version enumerator (`version-list.mjs`) -/

/-- An HTTP response as the scripts observe it: numeric status code and
parsed JSON body. The `ok` flag of the Fetch API is derived below. -/
structure HttpResponse (α : Type) where
  status : Nat
  body : α
deriving Repr, DecidableEq

/-- The Fetch API `Response.ok` flag: status in the 2xx range. -/
def HttpResponse.ok {α : Type} (r : HttpResponse α) : Bool :=
  decide (200 ≤ r.status) && decide (r.status < 300)

/-- Translation of `fetchWithChatIdFallback` from `version-list.mjs`: call
the endpoint built from the slug; fall back once to the hash identifier on
a 404; throw a descriptive error on any other failure. The stubbed fetch
implementation is a pure function from URL to response, and the list of
URLs requested is returned alongside the result. The source guard
rejecting a non-string slug is a JS type check outside this typed model;
authorization headers carry no information the stub observes. -/
def fetchWithChatIdFallback {υ α : Type} (slug hashId : String)
    (buildUrl : String → υ) (fetchImpl : υ → HttpResponse α) :
    Except String (HttpResponse α × String) × List υ :=
  let slugUrl := buildUrl slug
  let slugResponse := fetchImpl slugUrl
  if slugResponse.ok then
    (Except.ok (slugResponse, slug), [slugUrl])
  else if slugResponse.status = 404 then
    let hashUrl := buildUrl hashId
    let hashResponse := fetchImpl hashUrl
    if hashResponse.ok then
      (Except.ok (hashResponse, hashId), [slugUrl, hashUrl])
    else
      (Except.error ("Request failed with status " ++ toString hashResponse.status
        ++ " for hashId " ++ hashId), [slugUrl, hashUrl])
  else
    (Except.error ("Request failed with status " ++ toString slugResponse.status
      ++ " for slug " ++ slug), [slugUrl])

/-- One page of the versions endpoint: the versions array (absent when the
response lacks the field) and the optional pagination cursor. -/
structure Page where
  versions : Option (List Version)
  cursor : Option String
deriving Repr, DecidableEq

/-- The API base URL constant of the scripts. -/
def V0_API_BASE : String := "https://api.v0.dev/v1"

/-- The versions-endpoint URL as built in `fetchVersionList` (limit fixed
at 100, cursor appended by URLSearchParams when present). -/
def buildVersionsUrl (id : String) (cursor : Option String) : String :=
  match cursor with
  | none => V0_API_BASE ++ "/chats/" ++ id ++ "/versions?limit=100"
  | some c => V0_API_BASE ++ "/chats/" ++ id ++ "/versions?limit=100&cursor=" ++ c

/-- Insertion into a newest-first list, keeping earlier elements first on
timestamp ties. -/
def insertByNewest (getTime : String → Int) (v : Version) : List Version → List Version
  | [] => [v]
  | w :: ws =>
    if getTime w.createdAt ≤ getTime v.createdAt then v :: w :: ws
    else w :: insertByNewest getTime v ws

/-- The newest-first sort of `fetchVersionList`: the source sorts with the
comparator on `new Date(createdAt).getTime()` values using the stable
Array sort, which orders by timestamp descending keeping the original
order of ties; `getTime` abstracts the Date parsing. -/
def sortByCreatedAtDesc (getTime : String → Int) : List Version → List Version
  | [] => []
  | v :: vs => insertByNewest getTime v (sortByCreatedAtDesc getTime vs)

/-- The pagination loop of `fetchVersionList` for the second and later
pages: request the resolved identifier with the current cursor, fail on a
non-2xx status, accumulate the versions field when it is present, and
continue while a cursor is returned. The fuel argument bounds the number
of iterations so the translation is total; theorems supply enough fuel. -/
def paginate (fetchImpl : String → HttpResponse Page) (resolvedChatId : String) :
    Nat → String → List Version → Except String (List Version) × List String
  | 0, _, _ => (Except.error "pagination fuel exhausted", [])
  | fuel + 1, cursor, acc =>
    let url := buildVersionsUrl resolvedChatId (some cursor)
    let resp := fetchImpl url
    if resp.ok then
      let acc2 := acc ++ resp.body.versions.getD []
      match resp.body.cursor with
      | none => (Except.ok acc2, [url])
      | some c =>
        let step := paginate fetchImpl resolvedChatId fuel c acc2
        (step.1, url :: step.2)
    else
      (Except.error ("Pagination request failed with status " ++ toString resp.status), [url])

/-- Translation of `fetchVersionList` from `version-list.mjs`: resolve the
identifier with the one-shot slug-to-hash fallback on the first page, walk
the pagination cursors against the resolved identifier, tolerate pages
without a versions field, and sort the concatenation newest-first by
timestamp. Returns the result together with the list of URLs requested. -/
def fetchVersionList (slug hashId : String) (fetchImpl : String → HttpResponse Page)
    (getTime : String → Int) (fuel : Nat) :
    Except String (List Version × String) × List String :=
  match fetchWithChatIdFallback slug hashId (fun id => buildVersionsUrl id none) fetchImpl with
  | (Except.error e, reqs) => (Except.error e, reqs)
  | (Except.ok (resp, rid), reqs) =>
    let acc := resp.body.versions.getD []
    match resp.body.cursor with
    | none => (Except.ok (sortByCreatedAtDesc getTime acc, rid), reqs)
    | some c =>
      match paginate fetchImpl rid fuel c acc with
      | (Except.error e, reqs2) => (Except.error e, reqs ++ reqs2)
      | (Except.ok all, reqs2) => (Except.ok (sortByCreatedAtDesc getTime all, rid), reqs ++ reqs2)

/-- The statement that a stubbed fetch serves the given sequence of pages
for the given identifier: starting from the given cursor, each request
returns status 200 with the corresponding versions payload and carries the
cursor leading to the next page, and the last page carries no cursor. -/
def Serves (f : String → HttpResponse Page) (id : String) :
    Option String → List (Option (List Version)) → List String → Prop
  | cur, [p], [] => f (buildVersionsUrl id cur) = ⟨200, ⟨p, none⟩⟩
  | cur, p :: q :: rest, c :: cs =>
    f (buildVersionsUrl id cur) = ⟨200, ⟨p, some c⟩⟩ ∧ Serves f id (some c) (q :: rest) cs
  | _, _, _ => False

/-- Concatenation of the versions payloads of a page sequence, a missing
versions field contributing no entries. -/
def joinPages (pages : List (Option (List Version))) : List Version :=
  (pages.map (fun p => p.getD [])).flatten

/-! ## Archive extraction (`zip-download.mjs`) -/

/-- POSIX path normalisation over the dash-free segment list: empty and
dot segments vanish, a dot-dot segment pops the previous one (and is
dropped at the root, as node resolve does for absolute paths). -/
def normSegs (segs : List (List Char)) : List (List Char) :=
  segs.foldl
    (fun acc seg =>
      if seg = [] then acc
      else if seg = ['.'] then acc
      else if seg = ['.', '.'] then acc.dropLast
      else acc ++ [seg])
    []

/-- Normalisation of an absolute POSIX path string. -/
def normAbs (s : String) : String :=
  String.mk ('/' :: intercalateChar '/' (normSegs (splitOnChar '/' s.data)))

/-- The node `path.resolve(base)` for an absolute base path: pure
normalisation (a relative base would be resolved against the working
directory, which the theorems below avoid by using absolute targets). -/
def posixResolve1 (base : String) : String := normAbs base

/-- The node `path.resolve(base, name)` for an absolute base path: an
absolute name wins outright, a relative name is joined under the base,
and the result is normalised. -/
def posixResolve2 (base name : String) : String :=
  if name.data.head? = some '/' then normAbs name
  else normAbs (base ++ "/" ++ name)

/-- The JavaScript `String.prototype.startsWith`. -/
def jsStartsWith (s p : String) : Bool := p.data.isPrefixOf s.data

/-- The JavaScript `String.prototype.endsWith`. -/
def jsEndsWith (s p : String) : Bool := p.data.reverse.isPrefixOf s.data.reverse

/-- An extracted file descriptor as returned by the extractor: entry name,
byte size, and decoded text content. -/
structure ExtractedFile where
  name : String
  size : Nat
  content : String
deriving Repr, DecidableEq

/-- The loop body of `extractZipToDirectory`: entries are processed in
archive order; an entry whose resolved path fails the startsWith guard
aborts with a Zip Slip error (earlier entries stay written); a passing
entry is written to its resolved path and decoded into the result. Entry
data is modelled as the decoded string, the reported size being its UTF-8
byte length; the `mkdirSync` of the parent directory is subsumed by the
recorded write. -/
def extractLoop (targetDir resolvedTarget : String) :
    List (String × String) → Except String (List ExtractedFile) × List (String × String)
  | [] => (Except.ok [], [])
  | (name, data) :: rest =>
    let filePath := posixResolve2 targetDir name
    if jsStartsWith filePath resolvedTarget then
      match extractLoop targetDir resolvedTarget rest with
      | (Except.error e, writes) => (Except.error e, (filePath, data) :: writes)
      | (Except.ok files, writes) =>
        (Except.ok (⟨name, data.utf8ByteSize, data⟩ :: files), (filePath, data) :: writes)
    else
      (Except.error ("Zip Slip detected: \"" ++ name
        ++ "\" resolves outside target directory"), [])

/-- Translation of `extractZipToDirectory` from `zip-download.mjs`,
returning the extracted descriptors together with the list of disk writes
(resolved path and data) that were performed. -/
def extractZipToDirectory (entries : List (String × String)) (targetDir : String) :
    Except String (List ExtractedFile) × List (String × String) :=
  extractLoop targetDir (posixResolve1 targetDir) entries

/-- The claim-side notion of a path lying strictly inside a directory: it
extends the directory path at a path-component boundary. -/
def strictlyInside (dir path : String) : Bool := (dir ++ "/").data.isPrefixOf path.data

/-! ## URL parsing in the identity resolver (`fetch-v0.mjs`) -/

/-- The character class `[a-z0-9+.-]` of the scheme regex with the
case-insensitive flag. -/
def isSchemeChar (c : Char) : Bool :=
  isAsciiLower c || isAsciiUpper c || isAsciiDigit c || c = '+' || c = '.' || c = '-'

/-- The remainder of the anchored scheme regex after its first letter:
scheme characters followed by the literal separator. -/
def schemeTail : List Char → Bool
  | ':' :: '/' :: '/' :: _ => true
  | c :: rest => if isSchemeChar c then schemeTail rest else false
  | [] => false

/-- The test of the regex deciding that the trimmed input is a URL: a
letter, then scheme characters, then the scheme separator. -/
def isUrlLike : List Char → Bool
  | c :: rest => (isAsciiLower c || isAsciiUpper c) && schemeTail rest
  | [] => false

/-- The case-insensitive test for an http or https scheme. -/
def isHttpUrl (l : List Char) : Bool :=
  "http://".data.isPrefixOf (l.map Char.toLower)
    || "https://".data.isPrefixOf (l.map Char.toLower)

/-- The character class `[a-zA-Z0-9_-]` of the slug capture group. -/
def isSlugChar (c : Char) : Bool := isAsciiAlnum c || c = '_' || c = '-'

/-- The greedy capture of at least one slug character. -/
def captureSlug (l : List Char) : Option (List Char) :=
  if l.takeWhile isSlugChar = [] then none else some (l.takeWhile isSlugChar)

/-- One attempted match of the chat-URL regex at the current position:
the literal v0.app/chat/ or v0.dev/chat/ (twelve characters) followed by
the slug capture. -/
def matchV0At (l : List Char) : Option (List Char) :=
  if "v0.app/chat/".data.isPrefixOf l then captureSlug (l.drop 12)
  else if "v0.dev/chat/".data.isPrefixOf l then captureSlug (l.drop 12)
  else none

/-- The leftmost match of the chat-URL regex anywhere in the input, as the
un-anchored JavaScript `String.prototype.match` computes it. -/
def findV0Match : List Char → Option (List Char)
  | [] => none
  | c :: rest =>
    match matchV0At (c :: rest) with
    | some r => some r
    | none => findV0Match rest

/-- Translation of `extractChatId` from `fetch-v0.mjs`: reject a null
input, resolve a blank input to the empty identity, reject URL inputs
with a non-http(s) scheme or without a chat-URL match, and resolve the
captured or bare slug. -/
def extractChatId (input : Option String) : Except String ChatIdentity :=
  match input with
  | none => Except.error "extractChatId: input must be a string, got null"
  | some s =>
    let trimmed := jsTrim s
    if trimmed = "" then Except.ok ⟨"", "", ""⟩
    else if isUrlLike trimmed.data then
      if isHttpUrl trimmed.data then
        match findV0Match trimmed.data with
        | some slugChars => Except.ok (resolveSlug (String.mk slugChars))
        | none =>
          Except.error ("extractChatId: unsupported URL host — only v0.app and v0.dev URLs are supported: "
            ++ trimmed)
      else
        Except.error ("extractChatId: unsupported URL protocol — only http/https URLs are supported: "
          ++ trimmed)
    else
      Except.ok (resolveSlug trimmed)

/-- The scheme separator scan: the list remainder after the first
occurrence of the literal separator, when there is one. -/
def afterSchemeSep : List Char → Option (List Char)
  | [] => none
  | c :: rest =>
    if "://".data.isPrefixOf (c :: rest) then some ((c :: rest).drop 3)
    else afterSchemeSep rest

/-- The recognized chat-URL pattern in the words of the specification
claim: the authority after the scheme separator is exactly the v0.app or
v0.dev host and the path starts with /chat/ followed by at least one slug
character. This is the claim-side predicate compared against the code. -/
def specRecognizedChatUrl (s : String) : Bool :=
  match afterSchemeSep s.data with
  | none => false
  | some r =>
    let host := r.takeWhile (fun c => c ≠ '/')
    let path := r.dropWhile (fun c => c ≠ '/')
    (host = "v0.app".data || host = "v0.dev".data)
      && "/chat/".data.isPrefixOf path
      && (match path.drop 6 with
          | c :: _ => isSlugChar c
          | [] => false)

/-! ## Pipeline orchestrator (`fetch-v0.mjs`) -/

/-- A file as the pipeline passes it between its collaborators. -/
structure PFile where
  name : String
  size : Nat
  content : String
deriving Repr, DecidableEq

/-- A classified file: a pipeline file plus the custom flag. -/
structure ClassifiedFile where
  name : String
  size : Nat
  content : String
  isCustom : Bool
deriving Repr, DecidableEq

/-- The classifier output: the custom files and the default files (the
JS property named default). -/
structure Classified where
  custom : List ClassifiedFile
  defaultFiles : List ClassifiedFile
deriving Repr, DecidableEq

/-- The validator output as the pipeline consumes it. -/
structure ValidationResult where
  valid : List ClassifiedFile
  warnings : List Warning
deriving Repr, DecidableEq

/-- An observable effect of a pipeline run: a collaborator invocation, a
filesystem primitive, or console output. Network activity happens only
inside the collaborators, so the collaborator-invocation effects account
for it. -/
inductive Effect where
  | callFetchVersionList (slug hashId : String)
  | callSelectBestVersion
  | callDownloadAndExtract (resolvedChatId versionId targetDir : String)
  | callFetchCustomFileList (resolvedChatId versionId : String)
  | callClassifyFiles
  | callValidateCustomFiles
  | mkdirSync (path : String)
  | writeFileSync (path : String)
  | consoleError (msg : String)
  | consoleLog (msg : String)
deriving Repr, DecidableEq

/-- The injectable collaborators of `runPipeline`, as pure stubs: each
network-backed collaborator is a function returning an `Except` so stubs
can also model thrown errors. The filesystem primitives and the console
are recorded as effects rather than carried here. -/
structure Deps where
  fetchVersionList : String → String → String → Except String (List Version × String)
  selectBestVersion : List Version → Option Version
  downloadAndExtract : String → String → String → String → Except String (List PFile)
  fetchCustomFileList : String → String → String → Except String (List String)
  classifyFiles : List PFile → List String → Except String Classified
  validateCustomFiles : List ClassifiedFile → (JSVal → Bool) → Except String ValidationResult
  isPlaceholderContent : JSVal → Bool

/-- The options record accepted by `runPipeline`. -/
structure Options where
  inputArg : Option String
  customName : Option String
  outputDir : String
  apiKey : String
  versionId : Option String
  listVersions : Bool

/-- The result object `runPipeline` returns; in list mode the
download-related fields are zero and `listVersionsOutput` is present. -/
structure PipelineResult where
  featureName : String
  designDir : Option String
  versionId : Option String
  resolvedChatId : String
  totalFiles : Nat
  customFileCount : Nat
  defaultFileCount : Nat
  warnings : List Warning
  listVersionsOutput : Option String
deriving Repr, DecidableEq

/-- The effective feature name: the caller override when it is a
non-empty string (JS truthiness of `customName`), else the derived name. -/
def effectiveName (customName : Option String) (derived : String) : String :=
  match customName with
  | some c => if c = "" then derived else c
  | none => derived

/-- One line of the version table: 1-based descending index, id, status,
creation time, and the selected marker when the version is the best one. -/
def formatVersionLine (total index : Nat) (v : Version) (best : Option Version) : String :=
  "  #" ++ toString (total - index) ++ "  " ++ v.id ++ "  " ++ v.status ++ "  " ++ v.createdAt
    ++ (match best with
        | some b => if v.id = b.id then "  (selected)" else ""
        | none => "")

/-- The indexed loop of `formatVersionList` producing one line per
version. -/
def versionLinesFrom (total : Nat) (best : Option Version) :
    Nat → List Version → List String
  | _, [] => []
  | i, v :: vs => formatVersionLine total i v best :: versionLinesFrom total best (i + 1) vs

/-- The lines array built by `formatVersionList`: a header naming the
identifier and the total, then one line per version. -/
def formatVersionLines (hashId : String) (versions : List Version) (best : Option Version) :
    List String :=
  ("Versions for chat " ++ hashId ++ " (" ++ toString versions.length ++ " total):")
    :: versionLinesFrom versions.length best 0 versions

/-- Translation of `formatVersionList` from `fetch-v0.mjs`: the lines
joined with newlines. -/
def formatVersionList (hashId : String) (versions : List Version) (best : Option Version) :
    String :=
  String.intercalate "\n" (formatVersionLines hashId versions best)

/-- The scan of `findNextOlderCompleted` with its found-selected flag. -/
def findNextOlderCompletedGo (selectedVersionId : String) :
    List Version → Bool → Option Version
  | [], _ => none
  | v :: rest, foundSelected =>
    if v.id = selectedVersionId then findNextOlderCompletedGo selectedVersionId rest true
    else if foundSelected && v.status == "completed" then some v
    else findNextOlderCompletedGo selectedVersionId rest foundSelected

/-- Translation of `findNextOlderCompleted` from `fetch-v0.mjs`: the
first version after the selected one in list order whose status is
completed. -/
def findNextOlderCompleted (versions : List Version) (selectedVersionId : String) :
    Option Version :=
  findNextOlderCompletedGo selectedVersionId versions false

/-- The tail of the pipeline from the point where a version id has been
selected: directory creation, download, classification, validation,
warning output with the next-older-completed suggestion, manifest write,
and summary. Effects accumulate onto the prefix built by the caller. The
output directory join models `path.join(outputDir, "designs", name,
"v0-source")`; the manifest write records its path (its JSON text is not
inspected by any claim). -/
def runPipelineRest (opts : Options) (deps : Deps) (effectiveFeatureName resolvedChatId : String)
    (versions : List Version) (selectedVersionId : String) (effs : List Effect) :
    Except String PipelineResult × List Effect :=
  let designDir := opts.outputDir ++ "/designs/" ++ effectiveFeatureName ++ "/v0-source"
  let e3 := effs ++ [Effect.mkdirSync designDir]
  let e4 := e3 ++ [Effect.callDownloadAndExtract resolvedChatId selectedVersionId designDir]
  match deps.downloadAndExtract resolvedChatId selectedVersionId opts.apiKey designDir with
  | Except.error e => (Except.error e, e4)
  | Except.ok extractedFiles =>
    let e5 := e4 ++ [Effect.callFetchCustomFileList resolvedChatId selectedVersionId]
    match deps.fetchCustomFileList resolvedChatId selectedVersionId opts.apiKey with
    | Except.error e => (Except.error e, e5)
    | Except.ok customFileNames =>
      let e6 := e5 ++ [Effect.callClassifyFiles]
      match deps.classifyFiles extractedFiles customFileNames with
      | Except.error e => (Except.error e, e6)
      | Except.ok classified =>
        let e7 := e6 ++ [Effect.callValidateCustomFiles]
        match deps.validateCustomFiles classified.custom deps.isPlaceholderContent with
        | Except.error e => (Except.error e, e7)
        | Except.ok validationResult =>
          let warnEffs :=
            if validationResult.warnings.length > 0 then
              validationResult.warnings.map (fun w =>
                Effect.consoleError ("Warning: " ++ w.name ++ " — " ++ w.reason))
              ++ (match findNextOlderCompleted versions selectedVersionId with
                  | some olderVersion =>
                    [Effect.consoleError ("Try: --version " ++ olderVersion.id)]
                  | none => [])
            else []
          let e8 := e7 ++ warnEffs
          let e9 := e8 ++ [Effect.writeFileSync (designDir ++ "/manifest.json")]
          let e10 := e9 ++ [Effect.consoleLog ("Done! " ++ toString extractedFiles.length
            ++ " files (" ++ toString classified.custom.length ++ " custom, "
            ++ toString classified.defaultFiles.length ++ " default) written to " ++ designDir)]
          (Except.ok
            { featureName := effectiveFeatureName,
              designDir := some designDir,
              versionId := some selectedVersionId,
              resolvedChatId := resolvedChatId,
              totalFiles := extractedFiles.length,
              customFileCount := classified.custom.length,
              defaultFileCount := classified.defaultFiles.length,
              warnings := validationResult.warnings,
              listVersionsOutput := none }, e10)

/-- Translation of `runPipeline` from `fetch-v0.mjs`: identity
extraction, feature-name sanitisation, version enumeration, the
list-versions early return, version selection or the pinned version id,
then the download-to-manifest tail. The pair returned carries the result
(or thrown error) and the ordered effect trace. -/
def runPipeline (opts : Options) (deps : Deps) :
    Except String PipelineResult × List Effect :=
  match extractChatId opts.inputArg with
  | Except.error e => (Except.error e, [])
  | Except.ok ident =>
    let effectiveFeatureName := effectiveName opts.customName ident.featureName
    if jsIncludes effectiveFeatureName ".." || jsIncludes effectiveFeatureName "/"
        || jsIncludes effectiveFeatureName "\\" then
      (Except.error ("Invalid feature name: \"" ++ effectiveFeatureName
        ++ "\" contains path traversal characters"), [])
    else
      let e1 : List Effect := [Effect.callFetchVersionList ident.slug ident.hashId]
      match deps.fetchVersionList ident.slug ident.hashId opts.apiKey with
      | Except.error e => (Except.error e, e1)
      | Except.ok (versions, resolvedChatId) =>
        if opts.listVersions then
          let bestVersion := deps.selectBestVersion versions
          let e2 := e1 ++ [Effect.callSelectBestVersion]
          (Except.ok
            { featureName := effectiveFeatureName,
              designDir := none,
              versionId := bestVersion.map Version.id,
              resolvedChatId := resolvedChatId,
              totalFiles := 0,
              customFileCount := 0,
              defaultFileCount := 0,
              warnings := [],
              listVersionsOutput :=
                some (formatVersionList ident.hashId versions bestVersion) }, e2)
        else
          match (match opts.versionId with
                 | some vid => if vid = "" then none else some vid
                 | none => none) with
          | some pinnedId =>
            runPipelineRest opts deps effectiveFeatureName resolvedChatId versions pinnedId e1
          | none =>
            let e2 := e1 ++ [Effect.callSelectBestVersion]
            match deps.selectBestVersion versions with
            | none =>
              (Except.error "No suitable version found. The version list may be empty.", e2)
            | some bestVersion =>
              runPipelineRest opts deps effectiveFeatureName resolvedChatId versions
                bestVersion.id e2

/-- A deps stub whose collaborators all fail: used to witness that the
sanitisation error fires before any collaborator can be consulted. -/
def trivialDeps : Deps where
  fetchVersionList := fun _ _ _ => Except.error "stub"
  selectBestVersion := fun _ => none
  downloadAndExtract := fun _ _ _ _ => Except.error "stub"
  fetchCustomFileList := fun _ _ _ => Except.error "stub"
  classifyFiles := fun _ _ => Except.error "stub"
  validateCustomFiles := fun _ _ => Except.error "stub"
  isPlaceholderContent := fun _ => true

/-- The version list of the specification scenario, newest first. -/
def sampleVersions : List Version :=
  [⟨"ver_003", "generating", "2024-01-15T12:00:00Z"⟩,
    ⟨"ver_002", "completed", "2024-01-15T10:30:00Z"⟩,
    ⟨"ver_001", "completed", "2024-01-14T08:00:00Z"⟩]

/-- A deps stub for the normal-mode witness: one custom file whose
content is a placeholder, so validation yields one warning. -/
def normalModeDeps : Deps where
  fetchVersionList := fun _ _ _ => Except.ok (sampleVersions, "mEnUngV39k5")
  selectBestVersion := fun vs => vs.find? (fun v => v.status == "completed")
  downloadAndExtract := fun _ _ _ _ => Except.ok [⟨"app/page.tsx", 10, "GENERATING"⟩]
  fetchCustomFileList := fun _ _ _ => Except.ok ["app/page.tsx"]
  classifyFiles := fun files names =>
    Except.ok
      ⟨files.filterMap (fun f =>
          if names.contains f.name then some ⟨f.name, f.size, f.content, true⟩ else none),
        files.filterMap (fun f =>
          if names.contains f.name then none else some ⟨f.name, f.size, f.content, false⟩)⟩
  validateCustomFiles := fun cfs _ =>
    Except.ok ⟨[], cfs.map (fun f => ⟨f.name, "File content is a GENERATING placeholder"⟩)⟩
  isPlaceholderContent := isPlaceholderContent

/-- A deps stub for the list-mode witness: enumeration returns the
scenario versions and selection picks the first completed one. -/
def listModeDeps : Deps where
  fetchVersionList := fun _ _ _ => Except.ok (sampleVersions, "mEnUngV39k5")
  selectBestVersion := fun vs => vs.find? (fun v => v.status == "completed")
  downloadAndExtract := fun _ _ _ _ => Except.error "stub"
  fetchCustomFileList := fun _ _ _ => Except.error "stub"
  classifyFiles := fun _ _ => Except.error "stub"
  validateCustomFiles := fun _ _ => Except.error "stub"
  isPlaceholderContent := fun _ => true

end V0

namespace V0

/-! ## Theorems -/

theorem splitOnChar_ne_nil (sep : Char) (l : List Char) : splitOnChar sep l ≠ [] := by
  cases l with
  | nil => simp [splitOnChar]
  | cons c cs =>
    simp only [splitOnChar]
    split
    · simp
    · split <;> simp

theorem intercalateChar_splitOnChar (sep : Char) (l : List Char) :
    intercalateChar sep (splitOnChar sep l) = l := by
  induction l with
  | nil => rfl
  | cons c cs ih =>
    simp only [splitOnChar]
    split
    · rename_i hc
      subst hc
      rcases h : splitOnChar c cs with _ | ⟨p, ps⟩
      · exact absurd h (splitOnChar_ne_nil c cs)
      · rw [h] at ih
        simpa [intercalateChar] using ih
    · rcases h : splitOnChar sep cs with _ | ⟨p, ps⟩
      · exact absurd h (splitOnChar_ne_nil sep cs)
      · rw [h] at ih
        cases ps with
        | nil => simpa [intercalateChar] using ih
        | cons q qs => simpa [intercalateChar] using ih

theorem intercalateChar_dropLast (sep : Char) (ps : List (List Char)) (h : 1 < ps.length) :
    intercalateChar sep ps =
      intercalateChar sep ps.dropLast ++ sep :: ps.getLastD [] := by
  induction ps with
  | nil => simp at h
  | cons x rest ih =>
    cases rest with
    | nil => simp at h
    | cons y ys =>
      cases ys with
      | nil => simp [intercalateChar]
      | cons z zs =>
        have h' : 1 < (y :: z :: zs).length := by simp
        have := ih h'
        simp only [intercalateChar] at this ⊢
        simp [this, List.dropLast]

theorem string_append_data (a b : String) : (a ++ b).data = a.data ++ b.data := rfl

/-- C7: for every slug whose dash-separated parts number at least two and
whose last part qualifies as a hash segment, the resolved identity
satisfies `featureName ++ "-" ++ hashId = slug`; for every other slug, all
three fields of the identity equal the slug. -/
theorem resolveSlug_roundtrip (slug : String) :
    (1 < (splitOnChar '-' slug.data).length ∧
        isHashSegment (String.mk ((splitOnChar '-' slug.data).getLastD [])) = true →
      (resolveSlug slug).featureName ++ "-" ++ (resolveSlug slug).hashId = slug) ∧
    (¬(1 < (splitOnChar '-' slug.data).length ∧
        isHashSegment (String.mk ((splitOnChar '-' slug.data).getLastD [])) = true) →
      resolveSlug slug = ⟨slug, slug, slug⟩) := by
  constructor
  · rintro ⟨hlen, hhash⟩
    apply String.ext
    rw [string_append_data, string_append_data]
    simp only [resolveSlug, if_pos hlen, if_pos hhash]
    show intercalateChar '-' (splitOnChar '-' slug.data).dropLast ++ "-".data
        ++ (splitOnChar '-' slug.data).getLastD [] = slug.data
    have hdash : "-".data = ['-'] := rfl
    rw [hdash, List.append_assoc]
    show intercalateChar '-' (splitOnChar '-' slug.data).dropLast
        ++ '-' :: (splitOnChar '-' slug.data).getLastD [] = slug.data
    rw [← intercalateChar_dropLast '-' _ hlen, intercalateChar_splitOnChar]
  · intro h
    by_cases hlen : 1 < (splitOnChar '-' slug.data).length
    · have hhash : ¬ isHashSegment (String.mk ((splitOnChar '-' slug.data).getLastD [])) = true :=
        fun hh => h ⟨hlen, hh⟩
      simp only [resolveSlug, if_pos hlen, if_neg hhash]
    · simp only [resolveSlug, if_neg hlen]

/-- Witness for C7 at the concrete slugs from the test suite: the slug
with a qualifying trailing hash segment round-trips, and a slug with an
all-lowercase tail is passed through unchanged. -/
theorem resolveSlug_roundtrip_witness :
    (resolveSlug "app-Ab12Cd").featureName ++ "-" ++ (resolveSlug "app-Ab12Cd").hashId
        = "app-Ab12Cd" ∧
    resolveSlug "my-dashboard-settings" = ⟨"my-dashboard-settings", "my-dashboard-settings", "my-dashboard-settings"⟩ :=
  ⟨(resolveSlug_roundtrip "app-Ab12Cd").1 (by decide),
   (resolveSlug_roundtrip "my-dashboard-settings").2 (by decide)⟩

/-- C6: the selector is total (never throws), returns the first element
with status completed when one exists, otherwise the first non-null
element, and returns the null signal exactly when the list is absent,
empty, or entirely null elements. -/
theorem selectBestVersion_spec (versions : Option (List (Option Version))) :
    (∀ v : Version,
        (versions.getD []).find? (fun ov => ov.any fun x => x.status == "completed")
            = some (some v) →
        selectBestVersion versions = some v) ∧
    ((versions.getD []).find? (fun ov => ov.any fun x => x.status == "completed") = none →
      ∀ v : Version, (versions.getD []).find? (fun ov => ov.isSome) = some (some v) →
        selectBestVersion versions = some v) ∧
    (selectBestVersion versions = none ↔ ∀ ov ∈ versions.getD [], ov = none) := by
  match versions with
  | none => simp [selectBestVersion]
  | some vs =>
    refine ⟨?_, ?_, ?_⟩
    · intro v hfind
      have hne : vs ≠ [] := by
        intro hnil
        rw [hnil] at hfind
        simp at hfind
      simp only [Option.getD] at hfind
      simp [selectBestVersion, List.length_eq_zero, hne, hfind]
    · intro hnone v hfall
      have hne : vs ≠ [] := by
        intro hnil
        rw [hnil] at hfall
        simp at hfall
      simp only [Option.getD] at hnone hfall
      simp [selectBestVersion, List.length_eq_zero, hne, hnone, hfall]
    · constructor
      · intro hres ov hmem
        by_contra hnn
        rcases Option.ne_none_iff_exists.mp hnn with ⟨v, hv⟩
        subst hv
        have hne : vs ≠ [] := by
          intro hnil
          rw [hnil] at hmem
          simp at hmem
        rcases hc : vs.find? (fun ov => ov.any fun x => x.status == "completed") with _ | ⟨w⟩
        · rcases hf : vs.find? (fun ov => ov.isSome) with _ | ⟨w⟩
          · have := List.find?_eq_none.mp hf _ hmem
            simp at this
          · have hw := List.find?_some hf
            rcases w with _ | ⟨w'⟩
            · simp at hw
            · simp [selectBestVersion, List.length_eq_zero, hne, hc, hf] at hres
        · have hw := List.find?_some hc
          rcases w with _ | ⟨w'⟩
          · simp at hw
          · simp [selectBestVersion, List.length_eq_zero, hne, hc] at hres
      · intro hall
        rcases heq : vs with _ | ⟨a, rest⟩
        · simp [selectBestVersion]
        · rw [← heq]
          have hc : vs.find? (fun ov => ov.any fun x => x.status == "completed") = none := by
            refine List.find?_eq_none.mpr fun x hx => ?_
            rw [hall x hx]
            simp
          have hf : vs.find? (fun ov => ov.isSome) = none := by
            refine List.find?_eq_none.mpr fun x hx => ?_
            rw [hall x hx]
            simp
          simp [selectBestVersion, hc, hf]

/-- Witness for C6 at concrete inputs: a null element is skipped and the
first completed version found, and an entirely-null list yields the null
signal. -/
theorem selectBestVersion_spec_witness :
    selectBestVersion (some [none, some ⟨"v1", "completed", "2024-01-01T10:00:00Z"⟩])
        = some ⟨"v1", "completed", "2024-01-01T10:00:00Z"⟩ ∧
    selectBestVersion (some [none, none]) = none :=
  ⟨(selectBestVersion_spec (some [none, some ⟨"v1", "completed", "2024-01-01T10:00:00Z"⟩])).1
      ⟨"v1", "completed", "2024-01-01T10:00:00Z"⟩ (by decide),
   (selectBestVersion_spec (some [none, none])).2.2.mpr (by decide)⟩

theorem deriveReason_str (s : String) :
    deriveReason (JSVal.str s) = Except.ok (reasonOfStr s) := by
  by_cases h1 : (toUpperAscii (jsTrim s) == "GENERATING") = true <;>
    by_cases h2 : (jsTrim s == "") = true <;>
      simp only [deriveReason, reasonOfStr, h1, h2, if_true, if_false,
        Bool.not_eq_true] <;> simp [h1, h2]

/-- C2 counterexample: a file whose content is null is a placeholder under
the placeholder predicate, yet `validateCustomFiles` throws (the reason
derivation calls trim on a non-string) instead of returning a warning for
it. -/
theorem validateCustomFiles_null_throws :
    isPlaceholderContent JSVal.nullv = true ∧
    validateCustomFiles [⟨"a.tsx", JSVal.nullv⟩] isPlaceholderContent
      = Except.error "TypeError: content.trim is not a function" :=
  ⟨rfl, rfl⟩

/-- C2 (amended): when every content is a text string, the validator does
not throw, returns each non-placeholder file in the valid list, yields
exactly one warning per placeholder file, and the warning reasons are
three pairwise distinct strings with the empty case and the
still-generating case characterised exactly. -/
theorem validateCustomFiles_strings (files : List CustomFile)
    (h : ∀ f ∈ files, ∃ s, f.content = JSVal.str s) :
    validateCustomFiles files isPlaceholderContent =
      Except.ok
        (files.filter (fun f => !isPlaceholderContent f.content),
          (files.filter (fun f => isPlaceholderContent f.content)).map
            (fun f => ⟨f.name, reasonOfStr f.content.asString⟩)) ∧
    (reasonGenerating ≠ reasonEmpty ∧ reasonGenerating ≠ reasonFallback ∧
      reasonEmpty ≠ reasonFallback) ∧
    (∀ s : String,
      (reasonOfStr s = reasonGenerating ↔ toUpperAscii (jsTrim s) = "GENERATING") ∧
      (reasonOfStr s = reasonEmpty ↔
        (jsTrim s = "" ∧ toUpperAscii (jsTrim s) ≠ "GENERATING"))) := by
  have d1 : reasonGenerating ≠ reasonEmpty := by decide
  have d2 : reasonGenerating ≠ reasonFallback := by decide
  have d3 : reasonEmpty ≠ reasonFallback := by decide
  refine ⟨?_, ⟨d1, d2, d3⟩, ?_⟩
  · induction files with
    | nil => rfl
    | cons f rest ih =>
      rcases h f (by simp) with ⟨s, hs⟩
      have hrest := ih fun g hg => h g (by simp [hg])
      by_cases hp : isPlaceholderContent f.content = true
      · have hreason : deriveReason f.content = Except.ok (reasonOfStr f.content.asString) := by
          rw [hs]
          exact deriveReason_str s
        simp [validateCustomFiles, hp, hreason, hrest]
      · simp [validateCustomFiles, hp, hrest]
  · intro s
    by_cases h1 : toUpperAscii (jsTrim s) = "GENERATING"
    · have hval : reasonOfStr s = reasonGenerating := by simp [reasonOfStr, h1]
      rw [hval]
      exact ⟨⟨fun _ => h1, fun _ => rfl⟩,
        ⟨fun he => absurd he d1, fun hr => absurd h1 hr.2⟩⟩
    · by_cases h2 : jsTrim s = ""
      · have h0 : toUpperAscii "" ≠ "GENERATING" := by decide
        have hval : reasonOfStr s = reasonEmpty := by simp [reasonOfStr, h1, h2, h0]
        rw [hval]
        exact ⟨⟨fun he => absurd he.symm d1, fun hg => absurd hg h1⟩,
          ⟨fun _ => ⟨h2, h1⟩, fun _ => rfl⟩⟩
      · have hval : reasonOfStr s = reasonFallback := by simp [reasonOfStr, h1, h2]
        rw [hval]
        exact ⟨⟨fun hg => absurd hg.symm d2, fun hg => absurd hg h1⟩,
          ⟨fun he => absurd he.symm d3, fun hr => absurd hr.1 h2⟩⟩

theorem isPrefixOf_append_self (sub u : List Char) : sub.isPrefixOf (sub ++ u) = true := by
  induction sub with
  | nil => simp [List.isPrefixOf]
  | cons c cs ih => simp [List.isPrefixOf, ih]

theorem containsAt_of_isPrefixOf {sub l : List Char} (h : sub.isPrefixOf l = true) :
    containsAt sub l = true := by
  cases l with
  | nil => simpa [containsAt] using h
  | cons c cs => simp [containsAt, h]

theorem containsAt_parts (t sub u : List Char) : containsAt sub (t ++ (sub ++ u)) = true := by
  induction t with
  | nil => exact containsAt_of_isPrefixOf (isPrefixOf_append_self sub u)
  | cons c ts ih => simp [containsAt, ih]

theorem jsIncludes_of_data (s y : String) (t u : List Char) (h : s.data = t ++ (y.data ++ u)) :
    jsIncludes s y = true := by
  show containsAt y.data s.data = true
  rw [h]
  exact containsAt_parts t y.data u

/-- C4: the fallback helper requests the slug-built URL first; when that
response is 2xx it resolves to the slug with a single request; when and
only when the first response has status 404 a single retry against the
hash identifier is issued, adopting it on success; a non-404 first failure
or any failure of the fallback aborts with an error message containing the
failing status code and the identifier attempted, with no further
requests. The three cases are exhaustive, so exactly one retry happens
precisely on a 404 first response. -/
theorem fetchWithChatIdFallback_spec {υ α : Type} (slug hashId : String)
    (buildUrl : String → υ) (f : υ → HttpResponse α) :
    ((f (buildUrl slug)).ok = true →
      fetchWithChatIdFallback slug hashId buildUrl f
        = (Except.ok (f (buildUrl slug), slug), [buildUrl slug])) ∧
    ((f (buildUrl slug)).ok = false → (f (buildUrl slug)).status = 404 →
      ((f (buildUrl hashId)).ok = true →
        fetchWithChatIdFallback slug hashId buildUrl f
          = (Except.ok (f (buildUrl hashId), hashId), [buildUrl slug, buildUrl hashId])) ∧
      ((f (buildUrl hashId)).ok = false →
        ∃ msg : String,
          fetchWithChatIdFallback slug hashId buildUrl f
            = (Except.error msg, [buildUrl slug, buildUrl hashId]) ∧
          jsIncludes msg (toString (f (buildUrl hashId)).status) = true ∧
          jsIncludes msg hashId = true)) ∧
    ((f (buildUrl slug)).ok = false → (f (buildUrl slug)).status ≠ 404 →
      ∃ msg : String,
        fetchWithChatIdFallback slug hashId buildUrl f
          = (Except.error msg, [buildUrl slug]) ∧
        jsIncludes msg (toString (f (buildUrl slug)).status) = true ∧
        jsIncludes msg slug = true) := by
  refine ⟨?_, ?_, ?_⟩
  · intro h1
    simp [fetchWithChatIdFallback, h1]
  · intro h1 h404
    constructor
    · intro h2
      simp [fetchWithChatIdFallback, h1, h404, h2]
    · intro h2
      refine ⟨"Request failed with status " ++ toString (f (buildUrl hashId)).status
          ++ " for hashId " ++ hashId, ?_, ?_, ?_⟩
      · simp [fetchWithChatIdFallback, h1, h404, h2]
      · exact jsIncludes_of_data _ _ "Request failed with status ".data
          (" for hashId " ++ hashId).data
          (by simp [string_append_data, List.append_assoc])
      · exact jsIncludes_of_data _ _
          ("Request failed with status " ++ toString (f (buildUrl hashId)).status
            ++ " for hashId ").data []
          (by simp [string_append_data, List.append_assoc])
  · intro h1 h404
    refine ⟨"Request failed with status " ++ toString (f (buildUrl slug)).status
        ++ " for slug " ++ slug, ?_, ?_, ?_⟩
    · simp [fetchWithChatIdFallback, h1, h404]
    · exact jsIncludes_of_data _ _ "Request failed with status ".data
        (" for slug " ++ slug).data
        (by simp [string_append_data, List.append_assoc])
    · exact jsIncludes_of_data _ _
        ("Request failed with status " ++ toString (f (buildUrl slug)).status
          ++ " for slug ").data []
        (by simp [string_append_data, List.append_assoc])

/-- Witness for C4: a concrete stub answering 404 on the slug URL and 200
on the hash URL makes the helper adopt the hash identifier after exactly
two requests. -/
theorem fetchWithChatIdFallback_spec_witness :
    fetchWithChatIdFallback "my-chat-Abc123" "Abc123" (fun s => s)
        (fun u => if u = "my-chat-Abc123" then (⟨404, 0⟩ : HttpResponse Nat) else ⟨200, 0⟩)
      = (Except.ok (⟨200, 0⟩, "Abc123"), ["my-chat-Abc123", "Abc123"]) :=
  ((fetchWithChatIdFallback_spec "my-chat-Abc123" "Abc123" (fun s => s)
      (fun u => if u = "my-chat-Abc123" then (⟨404, 0⟩ : HttpResponse Nat) else ⟨200, 0⟩)).2.1
    (by decide) (by decide)).1 (by decide)

theorem serves_length (f : String → HttpResponse Page) (id : String) :
    ∀ (cur : Option String) (pages : List (Option (List Version))) (cs : List String),
      Serves f id cur pages cs → pages.length = cs.length + 1 := by
  intro cur pages
  induction pages generalizing cur with
  | nil => intro cs h; exact False.elim h
  | cons p rest ih =>
    intro cs h
    cases rest with
    | nil =>
      cases cs with
      | nil => rfl
      | cons c cs' => exact False.elim h
    | cons q rest' =>
      cases cs with
      | nil => exact False.elim h
      | cons c cs' =>
        have := ih (some c) cs' h.2
        simp only [List.length_cons] at this ⊢
        omega

theorem paginate_serves (f : String → HttpResponse Page) (id : String)
    (pages : List (Option (List Version))) :
    ∀ (cs : List String) (c : String) (acc : List Version) (fuel : Nat),
      Serves f id (some c) pages cs → pages.length ≤ fuel →
      paginate f id fuel c acc
        = (Except.ok (acc ++ joinPages pages),
           (c :: cs).map fun x => buildVersionsUrl id (some x)) := by
  induction pages with
  | nil => intro cs c acc fuel h _; exact False.elim h
  | cons p rest ih =>
    intro cs c acc fuel h hfuel
    cases rest with
    | nil =>
      cases cs with
      | cons c' cs' => exact False.elim h
      | nil =>
        match fuel, hfuel with
        | fuel + 1, _ =>
          have hresp : f (buildVersionsUrl id (some c)) = ⟨200, ⟨p, none⟩⟩ := h
          simp [paginate, hresp, HttpResponse.ok, joinPages]
    | cons q rest' =>
      cases cs with
      | nil => exact False.elim h
      | cons c' cs' =>
        obtain ⟨h1, h2⟩ := h
        match fuel, hfuel with
        | fuel + 1, hfuel =>
          have hfuel' : (q :: rest').length ≤ fuel := by
            simp only [List.length_cons] at hfuel ⊢
            omega
          have hrec := ih cs' c' (acc ++ p.getD []) fuel h2 hfuel'
          simp [paginate, h1, HttpResponse.ok, hrec, joinPages, List.append_assoc]

/-- C5: for a stubbed fetch serving N pages (each but the last carrying a
cursor), the enumerator issues exactly N requests — the first against the
slug, every later one against the resolved identifier with the cursor of
the previous page — and returns the concatenation of the versions payloads
of all pages (a page lacking the versions field contributing no entries)
sorted newest-first by the timestamp value of `createdAt`, for every
timestamp interpretation `getTime`. -/
theorem fetchVersionList_pagination (slug hashId : String)
    (f : String → HttpResponse Page) (getTime : String → Int)
    (pages : List (Option (List Version))) (cs : List String) (fuel : Nat)
    (h : Serves f slug none pages cs) (hfuel : pages.length ≤ fuel + 1) :
    fetchVersionList slug hashId f getTime fuel
      = (Except.ok (sortByCreatedAtDesc getTime (joinPages pages), slug),
         buildVersionsUrl slug none :: cs.map fun c => buildVersionsUrl slug (some c)) ∧
    (buildVersionsUrl slug none :: cs.map fun c => buildVersionsUrl slug (some c)).length
      = pages.length := by
  have hlen := serves_length f slug none pages cs h
  constructor
  · cases pages with
    | nil => exact False.elim h
    | cons p rest =>
      cases rest with
      | nil =>
        cases cs with
        | cons c' cs' => exact False.elim h
        | nil =>
          have hresp : f (buildVersionsUrl slug none) = ⟨200, ⟨p, none⟩⟩ := h
          simp [fetchVersionList, fetchWithChatIdFallback, hresp, HttpResponse.ok,
            joinPages]
      | cons q rest' =>
        cases cs with
        | nil => exact False.elim h
        | cons c' cs' =>
          obtain ⟨h1, h2⟩ := h
          have hfuel' : (q :: rest').length ≤ fuel := by
            simp only [List.length_cons] at hfuel ⊢
            omega
          have hrec := paginate_serves f slug (q :: rest') cs' c' (p.getD []) fuel h2 hfuel'
          simp [fetchVersionList, fetchWithChatIdFallback, h1, HttpResponse.ok, hrec,
            joinPages]
  · simp only [List.length_cons, List.length_map]
    omega

/-- Witness for C5 with a concrete two-page stub: both pages are fetched
(the second against the resolved identifier with the cursor), the missing
versions field of neither page occurs here, and the result is the sorted
concatenation. -/
theorem fetchVersionList_pagination_witness :
    fetchVersionList "chatA" "hashA"
        (fun u =>
          if u = buildVersionsUrl "chatA" none then
            ⟨200, ⟨some [⟨"v1", "completed", "t1"⟩], some "cur1"⟩⟩
          else if u = buildVersionsUrl "chatA" (some "cur1") then
            ⟨200, ⟨some [⟨"v2", "generating", "t2"⟩], none⟩⟩
          else ⟨500, ⟨none, none⟩⟩)
        (fun s => if s = "t2" then 2 else 1) 1
      = (Except.ok
          (sortByCreatedAtDesc (fun s => if s = "t2" then 2 else 1)
            (joinPages [some [⟨"v1", "completed", "t1"⟩], some [⟨"v2", "generating", "t2"⟩]]),
           "chatA"),
         buildVersionsUrl "chatA" none
           :: (["cur1"].map fun c => buildVersionsUrl "chatA" (some c))) ∧
    (buildVersionsUrl "chatA" none
      :: (["cur1"].map fun c => buildVersionsUrl "chatA" (some c))).length
      = ([some [⟨"v1", "completed", "t1"⟩], some [⟨"v2", "generating", "t2"⟩]]
          : List (Option (List Version))).length :=
  fetchVersionList_pagination "chatA" "hashA"
    (fun u =>
      if u = buildVersionsUrl "chatA" none then
        ⟨200, ⟨some [⟨"v1", "completed", "t1"⟩], some "cur1"⟩⟩
      else if u = buildVersionsUrl "chatA" (some "cur1") then
        ⟨200, ⟨some [⟨"v2", "generating", "t2"⟩], none⟩⟩
      else ⟨500, ⟨none, none⟩⟩)
    (fun s => if s = "t2" then 2 else 1)
    [some [⟨"v1", "completed", "t1"⟩], some [⟨"v2", "generating", "t2"⟩]] ["cur1"] 1
    ⟨by decide,
      show (fun u =>
          if u = buildVersionsUrl "chatA" none then
            (⟨200, ⟨some [⟨"v1", "completed", "t1"⟩], some "cur1"⟩⟩ : HttpResponse Page)
          else if u = buildVersionsUrl "chatA" (some "cur1") then
            ⟨200, ⟨some [⟨"v2", "generating", "t2"⟩], none⟩⟩
          else ⟨500, ⟨none, none⟩⟩) (buildVersionsUrl "chatA" (some "cur1"))
        = ⟨200, ⟨some [⟨"v2", "generating", "t2"⟩], none⟩⟩ from by decide⟩
    (by decide)

/-- C1: the claim that every entry resolving outside the target directory
is rejected before any write fails on the code. The guard compares
resolved paths with a bare startsWith, so an entry escaping into a
sibling directory whose absolute path extends the target path as a plain
string (no separator boundary) passes the check and is written outside
the target. The entry dot-dot-out-evil-x resolves to
/tmp/out-evil/x.txt, which is not strictly inside /tmp/out, yet
extraction succeeds and writes there; a plain dot-dot traversal is
rejected as the source intends, confirming the guard is reachable. -/
theorem extractZip_sibling_escape :
    extractZipToDirectory [("../out-evil/x.txt", "payload")] "/tmp/out"
      = (Except.ok [⟨"../out-evil/x.txt", 7, "payload"⟩],
         [("/tmp/out-evil/x.txt", "payload")]) ∧
    strictlyInside "/tmp/out" "/tmp/out-evil/x.txt" = false ∧
    extractZipToDirectory [("../../evil.txt", "x")] "/tmp/out"
      = (Except.error "Zip Slip detected: \"../../evil.txt\" resolves outside target directory",
         []) :=
  ⟨rfl, by decide, rfl⟩

theorem captureSlug_some {l sc : List Char} (h : captureSlug l = some sc) :
    sc ++ l.dropWhile isSlugChar = l := by
  unfold captureSlug at h
  split at h
  · exact absurd h (by simp)
  · obtain rfl : l.takeWhile isSlugChar = sc := by simpa using h
    exact List.takeWhile_append_dropWhile isSlugChar l

theorem matchV0At_some {l sc : List Char} (h : matchV0At l = some sc) :
    (∃ u, l = "v0.app/chat/".data ++ (sc ++ u)) ∨
    (∃ u, l = "v0.dev/chat/".data ++ (sc ++ u)) := by
  unfold matchV0At at h
  split at h
  · rename_i hpre
    left
    obtain ⟨u, hu⟩ := List.isPrefixOf_iff_prefix.mp hpre
    have hdrop : l.drop 12 = u := by
      rw [← hu]
      have h12 : 12 = "v0.app/chat/".data.length := by decide
      rw [h12, List.drop_left]
    rw [hdrop] at h
    refine ⟨u.dropWhile isSlugChar, ?_⟩
    rw [← hu, captureSlug_some h]
  · split at h
    · rename_i hpre
      right
      obtain ⟨u, hu⟩ := List.isPrefixOf_iff_prefix.mp hpre
      have hdrop : l.drop 12 = u := by
        rw [← hu]
        have h12 : 12 = "v0.dev/chat/".data.length := by decide
        rw [h12, List.drop_left]
      rw [hdrop] at h
      refine ⟨u.dropWhile isSlugChar, ?_⟩
      rw [← hu, captureSlug_some h]
    · exact absurd h (by simp)

theorem findV0Match_some {l sc : List Char} (h : findV0Match l = some sc) :
    (∃ t u, l = t ++ ("v0.app/chat/".data ++ (sc ++ u))) ∨
    (∃ t u, l = t ++ ("v0.dev/chat/".data ++ (sc ++ u))) := by
  induction l with
  | nil => simp [findV0Match] at h
  | cons c rest ih =>
    rw [findV0Match] at h
    rcases hm : matchV0At (c :: rest) with _ | ⟨r⟩
    · rw [hm] at h
      rcases ih h with ⟨t, u, ht⟩ | ⟨t, u, ht⟩
      · exact Or.inl ⟨c :: t, u, by rw [List.cons_append, ht]⟩
      · exact Or.inr ⟨c :: t, u, by rw [List.cons_append, ht]⟩
    · rw [hm] at h
      obtain rfl : r = sc := by simpa using h
      rcases matchV0At_some hm with ⟨u, hu⟩ | ⟨u, hu⟩
      · exact Or.inl ⟨[], u, by simpa using hu⟩
      · exact Or.inr ⟨[], u, by simpa using hu⟩

theorem findV0Match_isSome_append (t : List Char) :
    ∀ r : List Char, (matchV0At r).isSome → (findV0Match (t ++ r)).isSome := by
  induction t with
  | nil =>
    intro r hm
    cases r with
    | nil => simp [matchV0At] at hm
    | cons c cs =>
      rw [List.nil_append, findV0Match]
      rcases h : matchV0At (c :: cs) with _ | ⟨sc⟩
      · rw [h] at hm
        simp at hm
      · simp
  | cons c ts ih =>
    intro r hm
    rw [List.cons_append, findV0Match]
    rcases h : matchV0At (c :: (ts ++ r)) with _ | ⟨sc⟩
    · exact ih r hm
    · simp

theorem captureSlug_isSome (c : Char) (rest : List Char) (hc : isSlugChar c = true) :
    (captureSlug (c :: rest)).isSome := by
  unfold captureSlug
  simp [List.takeWhile_cons, hc]

theorem matchV0At_append_app (c : Char) (rest : List Char) (hc : isSlugChar c = true) :
    (matchV0At ("v0.app/chat/".data ++ (c :: rest))).isSome := by
  unfold matchV0At
  rw [isPrefixOf_append_self]
  have hdrop : ("v0.app/chat/".data ++ (c :: rest)).drop 12 = c :: rest := by
    have h12 : 12 = "v0.app/chat/".data.length := by decide
    rw [h12, List.drop_left]
  simp only [if_true, hdrop]
  exact captureSlug_isSome c rest hc

theorem matchV0At_append_dev (c : Char) (rest : List Char) (hc : isSlugChar c = true) :
    (matchV0At ("v0.dev/chat/".data ++ (c :: rest))).isSome := by
  unfold matchV0At
  have hno : "v0.app/chat/".data.isPrefixOf ("v0.dev/chat/".data ++ (c :: rest)) = false := rfl
  rw [hno, isPrefixOf_append_self]
  have hdrop : ("v0.dev/chat/".data ++ (c :: rest)).drop 12 = c :: rest := by
    have h12 : 12 = "v0.dev/chat/".data.length := by decide
    rw [h12, List.drop_left]
  simp only [if_true, if_false, Bool.false_eq_true, hdrop]
  exact captureSlug_isSome c rest hc

theorem findV0Match_isSome_of_decomp {l : List Char} (t : List Char) (c : Char)
    (rest : List Char) (hc : isSlugChar c = true)
    (h : l = t ++ ("v0.app/chat/".data ++ (c :: rest)) ∨
         l = t ++ ("v0.dev/chat/".data ++ (c :: rest))) :
    (findV0Match l).isSome := by
  rcases h with h | h <;> subst h
  · exact findV0Match_isSome_append t _ (matchV0At_append_app c rest hc)
  · exact findV0Match_isSome_append t _ (matchV0At_append_dev c rest hc)

theorem afterSchemeSep_some {l r : List Char} (h : afterSchemeSep l = some r) :
    ∃ t, l = t ++ ("://".data ++ r) := by
  induction l with
  | nil => simp [afterSchemeSep] at h
  | cons c rest ih =>
    unfold afterSchemeSep at h
    split at h
    · rename_i hpre
      obtain ⟨u, hu⟩ := List.isPrefixOf_iff_prefix.mp hpre
      have hr : (c :: rest).drop 3 = r := by simpa using h
      have hdrop : (c :: rest).drop 3 = u := by
        rw [← hu]
        have h3 : 3 = "://".data.length := by decide
        rw [h3, List.drop_left]
      have hru : r = u := by rw [← hr, hdrop]
      subst hru
      exact ⟨[], by rw [List.nil_append, ← hu]⟩
    · obtain ⟨t, ht⟩ := ih h
      exact ⟨c :: t, by rw [List.cons_append, ht]⟩

/-- C3 counterexample: an https URL whose host is not v0.app or v0.dev
still resolves successfully, because the chat-URL regex is matched
anywhere in the string rather than anchored at the host. The claim that
identity resolution fails for http(s) URLs whose host/path is not the
recognized chat-URL pattern is therefore false. -/
theorem extractChatId_host_confusion :
    extractChatId (some "https://evil.example/v0.app/chat/abc")
      = Except.ok ⟨"abc", "abc", "abc"⟩ ∧
    specRecognizedChatUrl "https://evil.example/v0.app/chat/abc" = false :=
  ⟨rfl, by decide⟩

/-- C3 (amended): for every URL input (scheme-shaped after trimming),
resolution fails with an unsupported-protocol error when the scheme is
not http(s); for an http(s) URL it fails with an unsupported-host error
exactly when the string contains no chat-URL pattern match, and otherwise
succeeds on the leftmost match, whose captured slug is guaranteed to
occur in the input directly after a literal v0.app/chat/ or v0.dev/chat/
substring — the host itself is not validated, and every URL recognized by
the claim-side host/path pattern does succeed. -/
theorem extractChatId_url_spec (s : String)
    (hurl : isUrlLike (jsTrim s).data = true) :
    (isHttpUrl (jsTrim s).data = false →
      ∃ msg, extractChatId (some s) = Except.error msg ∧
        jsIncludes msg "unsupported URL protocol" = true) ∧
    (isHttpUrl (jsTrim s).data = true →
      (findV0Match (jsTrim s).data = none →
        ∃ msg, extractChatId (some s) = Except.error msg ∧
          jsIncludes msg "unsupported URL host" = true) ∧
      (∀ sc, findV0Match (jsTrim s).data = some sc →
        extractChatId (some s) = Except.ok (resolveSlug (String.mk sc)) ∧
        (jsIncludes (jsTrim s) (String.mk ("v0.app/chat/".data ++ sc)) = true ∨
          jsIncludes (jsTrim s) (String.mk ("v0.dev/chat/".data ++ sc)) = true)) ∧
      (specRecognizedChatUrl (jsTrim s) = true →
        ∃ ident, extractChatId (some s) = Except.ok ident)) := by
  have hne : ¬ jsTrim s = "" := by
    intro he
    rw [he] at hurl
    exact absurd hurl (by decide)
  refine ⟨?_, ?_⟩
  · intro hproto
    refine ⟨"extractChatId: unsupported URL protocol — only http/https URLs are supported: "
        ++ jsTrim s, ?_, ?_⟩
    · simp [extractChatId, hne, hurl, hproto]
    · refine jsIncludes_of_data _ _ "extractChatId: ".data
        ((" — only http/https URLs are supported: ").data ++ (jsTrim s).data) ?_
      rw [string_append_data]
      have h0 : "extractChatId: unsupported URL protocol — only http/https URLs are supported: ".data
          = "extractChatId: ".data ++ ("unsupported URL protocol".data
            ++ " — only http/https URLs are supported: ".data) := by decide
      rw [h0]
      simp [List.append_assoc]
  · intro hproto
    refine ⟨?_, ?_, ?_⟩
    · intro hmatch
      refine ⟨"extractChatId: unsupported URL host — only v0.app and v0.dev URLs are supported: "
          ++ jsTrim s, ?_, ?_⟩
      · simp [extractChatId, hne, hurl, hproto, hmatch]
      · refine jsIncludes_of_data _ _ "extractChatId: ".data
          ((" — only v0.app and v0.dev URLs are supported: ").data ++ (jsTrim s).data) ?_
        rw [string_append_data]
        have h0 : "extractChatId: unsupported URL host — only v0.app and v0.dev URLs are supported: ".data
            = "extractChatId: ".data ++ ("unsupported URL host".data
              ++ " — only v0.app and v0.dev URLs are supported: ".data) := by decide
        rw [h0]
        simp [List.append_assoc]
    · intro sc hmatch
      refine ⟨by simp [extractChatId, hne, hurl, hproto, hmatch], ?_⟩
      rcases findV0Match_some hmatch with ⟨t, u, ht⟩ | ⟨t, u, ht⟩
      · left
        refine jsIncludes_of_data _ _ t u ?_
        show (jsTrim s).data = t ++ (("v0.app/chat/".data ++ sc) ++ u)
        rw [ht, List.append_assoc]
      · right
        refine jsIncludes_of_data _ _ t u ?_
        show (jsTrim s).data = t ++ (("v0.dev/chat/".data ++ sc) ++ u)
        rw [ht, List.append_assoc]
    · intro hrec
      unfold specRecognizedChatUrl at hrec
      rcases hsep : afterSchemeSep (jsTrim s).data with _ | ⟨r⟩
      · rw [hsep] at hrec
        simp at hrec
      · rw [hsep] at hrec
        simp only [Bool.and_eq_true, Bool.or_eq_true, decide_eq_true_eq] at hrec
        obtain ⟨⟨hhost, hpath⟩, hslug⟩ := hrec
        obtain ⟨t, ht⟩ := afterSchemeSep_some hsep
        have hsplit : r.takeWhile (fun c => c ≠ '/') ++ r.dropWhile (fun c => c ≠ '/') = r :=
          List.takeWhile_append_dropWhile _ r
        obtain ⟨path', hpath'⟩ :=
          (List.isPrefixOf_iff_prefix.mp hpath : "/chat/".data <+: r.dropWhile (fun c => c ≠ '/'))
        have hdrop : (r.dropWhile (fun c => c ≠ '/')).drop 6 = path' := by
          rw [← hpath']
          rfl
        rw [hdrop] at hslug
        rcases path' with _ | ⟨c, rest2⟩
        · simp at hslug
        · have hc : isSlugChar c = true := hslug
          have hl : (jsTrim s).data = (t ++ "://".data) ++ ("v0.app/chat/".data ++ (c :: rest2))
              ∨ (jsTrim s).data = (t ++ "://".data) ++ ("v0.dev/chat/".data ++ (c :: rest2)) := by
            rcases hhost with hhost | hhost
            · left
              rw [ht, ← hsplit, hhost, ← hpath']
              have hm : "v0.app".data ++ "/chat/".data = "v0.app/chat/".data := by decide
              rw [← hm]
              simp [List.append_assoc]
            · right
              rw [ht, ← hsplit, hhost, ← hpath']
              have hm : "v0.dev".data ++ "/chat/".data = "v0.dev/chat/".data := by decide
              rw [← hm]
              simp [List.append_assoc]
          have hsome := findV0Match_isSome_of_decomp (t ++ "://".data) c rest2 hc hl
          obtain ⟨sc, hsc⟩ := Option.isSome_iff_exists.mp hsome
          exact ⟨resolveSlug (String.mk sc), by simp [extractChatId, hne, hurl, hproto, hsc]⟩

/-- Witness for C3 (amended) at the scenario URL: resolution succeeds on
the captured slug, which occurs right after the v0.app/chat/ substring. -/
theorem extractChatId_url_spec_witness :
    extractChatId (some "https://v0.app/chat/book-advertising-dashboard-mEnUngV39k5")
      = Except.ok (resolveSlug
          (String.mk "book-advertising-dashboard-mEnUngV39k5".data)) ∧
    (jsIncludes (jsTrim "https://v0.app/chat/book-advertising-dashboard-mEnUngV39k5")
        (String.mk ("v0.app/chat/".data ++ "book-advertising-dashboard-mEnUngV39k5".data))
        = true ∨
      jsIncludes (jsTrim "https://v0.app/chat/book-advertising-dashboard-mEnUngV39k5")
        (String.mk ("v0.dev/chat/".data ++ "book-advertising-dashboard-mEnUngV39k5".data))
        = true) :=
  ((extractChatId_url_spec "https://v0.app/chat/book-advertising-dashboard-mEnUngV39k5"
      (by decide)).2 (by decide)).2.1
    "book-advertising-dashboard-mEnUngV39k5".data (by decide)

/-- Witness for C2 (amended) at the concrete sample list. -/
theorem validateCustomFiles_strings_witness :
    validateCustomFiles sampleCustomFiles isPlaceholderContent =
      Except.ok
        (sampleCustomFiles.filter (fun f => !isPlaceholderContent f.content),
          (sampleCustomFiles.filter (fun f => isPlaceholderContent f.content)).map
            (fun f => ⟨f.name, reasonOfStr f.content.asString⟩)) ∧
    (reasonGenerating ≠ reasonEmpty ∧ reasonGenerating ≠ reasonFallback ∧
      reasonEmpty ≠ reasonFallback) ∧
    (∀ s : String,
      (reasonOfStr s = reasonGenerating ↔ toUpperAscii (jsTrim s) = "GENERATING") ∧
      (reasonOfStr s = reasonEmpty ↔
        (jsTrim s = "" ∧ toUpperAscii (jsTrim s) ≠ "GENERATING"))) :=
  validateCustomFiles_strings sampleCustomFiles
    (by
      intro f hf
      simp only [sampleCustomFiles, List.mem_cons, List.not_mem_nil, or_false] at hf
      rcases hf with h | h | h <;> (subst h; exact ⟨_, rfl⟩))

/-- C8: when the effective feature name (the caller override applied over
the derived name) contains a dot-dot, slash, or backslash, the pipeline
fails with the path-traversal error and its effect trace is empty: no
collaborator is invoked, no network request is made, and nothing is
written to the filesystem. -/
theorem runPipeline_sanitizes (opts : Options) (deps : Deps) (ident : ChatIdentity)
    (hid : extractChatId opts.inputArg = Except.ok ident)
    (hbad : (jsIncludes (effectiveName opts.customName ident.featureName) ".."
        || jsIncludes (effectiveName opts.customName ident.featureName) "/"
        || jsIncludes (effectiveName opts.customName ident.featureName) "\\") = true) :
    runPipeline opts deps
      = (Except.error ("Invalid feature name: \""
          ++ effectiveName opts.customName ident.featureName
          ++ "\" contains path traversal characters"), []) ∧
    jsIncludes ("Invalid feature name: \""
        ++ effectiveName opts.customName ident.featureName
        ++ "\" contains path traversal characters") "path traversal" = true := by
  constructor
  · simp [runPipeline, hid, hbad]
  · refine jsIncludes_of_data _ _
      (("Invalid feature name: \"" ++ effectiveName opts.customName ident.featureName).data
        ++ "\" contains ".data) (" characters".data) ?_
    have h0 : "\" contains path traversal characters".data
        = "\" contains ".data ++ ("path traversal".data ++ " characters".data) := by decide
    rw [string_append_data, string_append_data, h0]
    simp [List.append_assoc]

/-- Witness for C8: the scenario override dot-dot-etc-evil is rejected
with an empty effect trace against a fully stubbed dependency set. -/
theorem runPipeline_sanitizes_witness :
    runPipeline
        { inputArg := some "https://v0.app/chat/demo", customName := some "../../../etc/evil",
          outputDir := "/tmp", apiKey := "k", versionId := none, listVersions := false }
        trivialDeps
      = (Except.error ("Invalid feature name: \""
          ++ effectiveName (some "../../../etc/evil") "demo"
          ++ "\" contains path traversal characters"), []) ∧
    jsIncludes ("Invalid feature name: \"" ++ effectiveName (some "../../../etc/evil") "demo"
        ++ "\" contains path traversal characters") "path traversal" = true :=
  runPipeline_sanitizes
    { inputArg := some "https://v0.app/chat/demo", customName := some "../../../etc/evil",
      outputDir := "/tmp", apiKey := "k", versionId := none, listVersions := false }
    trivialDeps ⟨"demo", "demo", "demo"⟩ rfl (by decide)

theorem jsEndsWith_append_self (x y : String) : jsEndsWith (x ++ y) y = true := by
  show (y.data.reverse.isPrefixOf (x ++ y).data.reverse) = true
  rw [string_append_data, List.reverse_append]
  exact isPrefixOf_append_self _ _

theorem versionLinesFrom_length (total : Nat) (best : Option Version) :
    ∀ (vs : List Version) (k : Nat), (versionLinesFrom total best k vs).length = vs.length := by
  intro vs
  induction vs with
  | nil => intro k; rfl
  | cons v rest ih => intro k; simp [versionLinesFrom, ih]

theorem versionLinesFrom_getElem (total : Nat) (best : Option Version) :
    ∀ (vs : List Version) (k i : Nat) (v : Version), vs[i]? = some v →
      (versionLinesFrom total best k vs)[i]? = some (formatVersionLine total (k + i) v best) := by
  intro vs
  induction vs with
  | nil => intro k i v hv; simp at hv
  | cons w rest ih =>
    intro k i v hv
    cases i with
    | zero =>
      obtain rfl : w = v := by simpa using hv
      simp [versionLinesFrom]
    | succ j =>
      have hv' : rest[j]? = some v := by simpa using hv
      have := ih (k + 1) j v hv'
      simpa [versionLinesFrom, Nat.add_assoc, Nat.add_comm 1 j] using this

/-- C9: in list mode the pipeline returns right after enumeration and
annotation selection — the trace holds exactly the enumeration and
selection effects, so no download, classification, or validation
collaborator runs and nothing touches the filesystem — and the returned
output joins a header with one line per version carrying the 1-based
descending index, id, status, and creation time; when a best version
exists, a line carries the trailing selected marker precisely when its
version has the best id (the guard hypothesis excludes a version whose
own fields end in the marker text). -/
theorem runPipeline_listVersions (opts : Options) (deps : Deps) (ident : ChatIdentity)
    (versions : List Version) (rid : String)
    (hid : extractChatId opts.inputArg = Except.ok ident)
    (hgood : (jsIncludes (effectiveName opts.customName ident.featureName) ".."
        || jsIncludes (effectiveName opts.customName ident.featureName) "/"
        || jsIncludes (effectiveName opts.customName ident.featureName) "\\") = false)
    (hlist : opts.listVersions = true)
    (hfvl : deps.fetchVersionList ident.slug ident.hashId opts.apiKey
        = Except.ok (versions, rid)) :
    runPipeline opts deps
      = (Except.ok
          { featureName := effectiveName opts.customName ident.featureName,
            designDir := none,
            versionId := (deps.selectBestVersion versions).map Version.id,
            resolvedChatId := rid,
            totalFiles := 0, customFileCount := 0, defaultFileCount := 0,
            warnings := [],
            listVersionsOutput := some (formatVersionList ident.hashId versions
              (deps.selectBestVersion versions)) },
         [Effect.callFetchVersionList ident.slug ident.hashId,
          Effect.callSelectBestVersion]) ∧
    (formatVersionLines ident.hashId versions (deps.selectBestVersion versions)).length
      = versions.length + 1 ∧
    (∀ i v, versions[i]? = some v →
      ∃ line,
        (formatVersionLines ident.hashId versions (deps.selectBestVersion versions))[i + 1]?
          = some line ∧
        jsIncludes line ("#" ++ toString (versions.length - i)) = true ∧
        jsIncludes line v.id = true ∧
        jsIncludes line v.status = true ∧
        jsIncludes line v.createdAt = true ∧
        (∀ b, deps.selectBestVersion versions = some b →
          jsEndsWith (formatVersionLine versions.length i v none) "  (selected)" = false →
          (jsEndsWith line "  (selected)" = true ↔ v.id = b.id))) := by
  refine ⟨?_, ?_, ?_⟩
  · simp [runPipeline, hid, hgood, hlist, hfvl]
  · simp [formatVersionLines, versionLinesFrom_length]
  · intro i v hv
    refine ⟨formatVersionLine versions.length i v (deps.selectBestVersion versions),
      ?_, ?_, ?_, ?_, ?_, ?_⟩
    · have := versionLinesFrom_getElem versions.length (deps.selectBestVersion versions)
        versions 0 i v hv
      simpa [formatVersionLines] using this
    · obtain ⟨m, hm⟩ : ∃ m,
          formatVersionLine versions.length i v (deps.selectBestVersion versions)
            = "  #" ++ toString (versions.length - i) ++ "  " ++ v.id ++ "  " ++ v.status
              ++ "  " ++ v.createdAt ++ m := ⟨_, rfl⟩
      rw [hm]
      refine jsIncludes_of_data _ _ "  ".data
        (("  " ++ v.id ++ "  " ++ v.status ++ "  " ++ v.createdAt ++ m).data) ?_
      have h0 : "  #".data = "  ".data ++ "#".data := by decide
      simp only [string_append_data, h0]
      simp [List.append_assoc]
    · obtain ⟨m, hm⟩ : ∃ m,
          formatVersionLine versions.length i v (deps.selectBestVersion versions)
            = "  #" ++ toString (versions.length - i) ++ "  " ++ v.id ++ "  " ++ v.status
              ++ "  " ++ v.createdAt ++ m := ⟨_, rfl⟩
      rw [hm]
      refine jsIncludes_of_data _ _
        (("  #" ++ toString (versions.length - i) ++ "  ").data)
        (("  " ++ v.status ++ "  " ++ v.createdAt ++ m).data) ?_
      simp only [string_append_data]
      simp [List.append_assoc]
    · obtain ⟨m, hm⟩ : ∃ m,
          formatVersionLine versions.length i v (deps.selectBestVersion versions)
            = "  #" ++ toString (versions.length - i) ++ "  " ++ v.id ++ "  " ++ v.status
              ++ "  " ++ v.createdAt ++ m := ⟨_, rfl⟩
      rw [hm]
      refine jsIncludes_of_data _ _
        (("  #" ++ toString (versions.length - i) ++ "  " ++ v.id ++ "  ").data)
        (("  " ++ v.createdAt ++ m).data) ?_
      simp only [string_append_data]
      simp [List.append_assoc]
    · obtain ⟨m, hm⟩ : ∃ m,
          formatVersionLine versions.length i v (deps.selectBestVersion versions)
            = "  #" ++ toString (versions.length - i) ++ "  " ++ v.id ++ "  " ++ v.status
              ++ "  " ++ v.createdAt ++ m := ⟨_, rfl⟩
      rw [hm]
      refine jsIncludes_of_data _ _
        (("  #" ++ toString (versions.length - i) ++ "  " ++ v.id ++ "  " ++ v.status
          ++ "  ").data) (m.data) ?_
      simp only [string_append_data]
      simp [List.append_assoc]
    · intro b hb hclean
      rw [hb]
      constructor
      · intro hend
        by_contra hne
        have hsame : formatVersionLine versions.length i v (some b)
            = formatVersionLine versions.length i v none := by
          simp [formatVersionLine, hne]
        rw [hsame, hclean] at hend
        exact absurd hend (by simp)
      · intro heq
        have hmark : formatVersionLine versions.length i v (some b)
            = ("  #" ++ toString (versions.length - i) ++ "  " ++ v.id ++ "  " ++ v.status
              ++ "  " ++ v.createdAt) ++ "  (selected)" := by
          simp [formatVersionLine, heq]
        rw [hmark]
        exact jsEndsWith_append_self _ _

/-- Witness for C9 on the scenario versions: the pipeline in list mode
returns the two enumeration effects only, with the formatted output. -/
theorem runPipeline_listVersions_witness :
    runPipeline
        { inputArg := some "https://v0.app/chat/book-advertising-dashboard-mEnUngV39k5",
          customName := none, outputDir := "/tmp", apiKey := "k", versionId := none,
          listVersions := true }
        listModeDeps
      = (Except.ok
          { featureName := effectiveName none
              (resolveSlug "book-advertising-dashboard-mEnUngV39k5").featureName,
            designDir := none,
            versionId := (listModeDeps.selectBestVersion sampleVersions).map Version.id,
            resolvedChatId := "mEnUngV39k5",
            totalFiles := 0, customFileCount := 0, defaultFileCount := 0,
            warnings := [],
            listVersionsOutput := some (formatVersionList
              (resolveSlug "book-advertising-dashboard-mEnUngV39k5").hashId sampleVersions
              (listModeDeps.selectBestVersion sampleVersions)) },
         [Effect.callFetchVersionList
            (resolveSlug "book-advertising-dashboard-mEnUngV39k5").slug
            (resolveSlug "book-advertising-dashboard-mEnUngV39k5").hashId,
          Effect.callSelectBestVersion]) :=
  (runPipeline_listVersions
    { inputArg := some "https://v0.app/chat/book-advertising-dashboard-mEnUngV39k5",
      customName := none, outputDir := "/tmp", apiKey := "k", versionId := none,
      listVersions := true }
    listModeDeps (resolveSlug "book-advertising-dashboard-mEnUngV39k5") sampleVersions
    "mEnUngV39k5" rfl (by decide) rfl rfl).1

theorem findNextOlderCompletedGo_none (selId : String) :
    ∀ vs : List Version, (∀ v ∈ vs, v.id ≠ selId) →
      findNextOlderCompletedGo selId vs false = none := by
  intro vs
  induction vs with
  | nil => intro _; rfl
  | cons v rest ih =>
    intro h
    have hv : v.id ≠ selId := h v (by simp)
    rw [findNextOlderCompletedGo, if_neg hv]
    simpa using ih fun w hw => h w (by simp [hw])

theorem findNextOlderCompletedGo_skip (selId : String) :
    ∀ (pre rest : List Version), (∀ v ∈ pre, v.id ≠ selId) →
      findNextOlderCompletedGo selId (pre ++ rest) false
        = findNextOlderCompletedGo selId rest false := by
  intro pre
  induction pre with
  | nil => intro rest _; rfl
  | cons v pre' ih =>
    intro rest h
    have hv : v.id ≠ selId := h v (by simp)
    rw [List.cons_append, findNextOlderCompletedGo, if_neg hv]
    simpa using ih rest fun w hw => h w (by simp [hw])

theorem findNextOlderCompletedGo_found (selId : String) :
    ∀ post : List Version, (∀ v ∈ post, v.id ≠ selId) →
      findNextOlderCompletedGo selId post true
        = post.find? (fun v => v.status == "completed") := by
  intro post
  induction post with
  | nil => intro _; rfl
  | cons v rest ih =>
    intro h
    have hv : v.id ≠ selId := h v (by simp)
    rw [findNextOlderCompletedGo, if_neg hv]
    by_cases hc : (v.status == "completed") = true
    · simp [List.find?, hc]
    · have hc' : (v.status == "completed") = false := by simpa using hc
      simp only [Bool.true_and, hc', Bool.false_eq_true, if_false, List.find?]
      exact ih fun w hw => h w (by simp [hw])

theorem startsWith_try_of_warning (s : String) :
    jsStartsWith ("Warning: " ++ s) "Try: --version " = false := rfl

/-- C10: when the selected version id equals no element of the list (an
explicitly pinned, unlisted id), the next-older-completed scan returns
the null signal; when the selected id occurs exactly once, the scan
returns the first later element with status completed (or null); and in
the orchestrator a run whose warnings have no next older completed
version still succeeds and prints no remediation suggestion — no
console-error effect in its trace starts with the suggestion text. -/
theorem findNextOlderCompleted_spec :
    (∀ (versions : List Version) (selId : String),
      (∀ v ∈ versions, v.id ≠ selId) →
      findNextOlderCompleted versions selId = none) ∧
    (∀ (pre post : List Version) (sel : Version) (selId : String),
      sel.id = selId → (∀ v ∈ pre, v.id ≠ selId) → (∀ v ∈ post, v.id ≠ selId) →
      findNextOlderCompleted (pre ++ sel :: post) selId
        = post.find? (fun v => v.status == "completed")) ∧
    (∀ (opts : Options) (deps : Deps) (effName rid selId : String)
        (versions : List Version) (effs : List Effect) (files : List PFile)
        (names : List String) (classified : Classified) (vres : ValidationResult),
      deps.downloadAndExtract rid selId opts.apiKey
          (opts.outputDir ++ "/designs/" ++ effName ++ "/v0-source") = Except.ok files →
      deps.fetchCustomFileList rid selId opts.apiKey = Except.ok names →
      deps.classifyFiles files names = Except.ok classified →
      deps.validateCustomFiles classified.custom deps.isPlaceholderContent = Except.ok vres →
      findNextOlderCompleted versions selId = none →
      (runPipelineRest opts deps effName rid versions selId effs).1
          = Except.ok
            { featureName := effName,
              designDir := some (opts.outputDir ++ "/designs/" ++ effName ++ "/v0-source"),
              versionId := some selId, resolvedChatId := rid,
              totalFiles := files.length, customFileCount := classified.custom.length,
              defaultFileCount := classified.defaultFiles.length,
              warnings := vres.warnings, listVersionsOutput := none } ∧
      (∃ rest, (runPipelineRest opts deps effName rid versions selId effs).2 = effs ++ rest ∧
        ∀ e ∈ rest, ∀ m, e = Effect.consoleError m →
          jsStartsWith m "Try: --version " = false)) := by
  refine ⟨?_, ?_, ?_⟩
  · intro versions selId h
    exact findNextOlderCompletedGo_none selId versions h
  · intro pre post sel selId hsel hpre hpost
    unfold findNextOlderCompleted
    rw [findNextOlderCompletedGo_skip selId pre (sel :: post) hpre,
      findNextOlderCompletedGo, if_pos hsel]
    exact findNextOlderCompletedGo_found selId post hpost
  · intro opts deps effName rid selId versions effs files names classified vres
      hdl hfc hcl hval hnone
    constructor
    · simp [runPipelineRest, hdl, hfc, hcl, hval]
    · refine ⟨[Effect.mkdirSync (opts.outputDir ++ "/designs/" ++ effName ++ "/v0-source"),
        Effect.callDownloadAndExtract rid selId
          (opts.outputDir ++ "/designs/" ++ effName ++ "/v0-source"),
        Effect.callFetchCustomFileList rid selId,
        Effect.callClassifyFiles, Effect.callValidateCustomFiles]
        ++ (if vres.warnings.length > 0 then
              vres.warnings.map (fun w =>
                Effect.consoleError ("Warning: " ++ w.name ++ " — " ++ w.reason))
            else [])
        ++ [Effect.writeFileSync (opts.outputDir ++ "/designs/" ++ effName
              ++ "/v0-source" ++ "/manifest.json"),
            Effect.consoleLog ("Done! " ++ toString files.length
              ++ " files (" ++ toString classified.custom.length ++ " custom, "
              ++ toString classified.defaultFiles.length ++ " default) written to "
              ++ (opts.outputDir ++ "/designs/" ++ effName ++ "/v0-source"))], ?_, ?_⟩
      · simp [runPipelineRest, hdl, hfc, hcl, hval, hnone, List.append_assoc]
      · intro e he m hem
        rw [List.append_assoc, List.mem_append] at he
        rcases he with he | he
        · simp only [List.mem_cons, List.not_mem_nil, or_false] at he
          rcases he with rfl | rfl | rfl | rfl | rfl <;> exact absurd hem (by simp)
        · rw [List.mem_append] at he
          rcases he with he | he
          · by_cases hw : vres.warnings.length > 0
            · rw [if_pos hw, List.mem_map] at he
              obtain ⟨w, _, rfl⟩ := he
              obtain rfl : m = "Warning: " ++ w.name ++ " — " ++ w.reason :=
                (Effect.consoleError.injEq _ _).mp hem.symm
              exact startsWith_try_of_warning _
            · rw [if_neg hw] at he
              exact absurd he (List.not_mem_nil e)
          · simp only [List.mem_cons, List.not_mem_nil, or_false] at he
            rcases he with rfl | rfl <;> exact absurd hem (by simp)

/-- Witness for C10: the scan on the scenario list with an unlisted
pinned id yields the null signal; with the selected completed version in
the middle it yields the next older completed one; and the orchestrator
tail run with an unlisted pinned id succeeds with one warning and no
suggestion effect. -/
theorem findNextOlderCompleted_spec_witness :
    findNextOlderCompleted sampleVersions "ver_999" = none ∧
    findNextOlderCompleted
        ([⟨"ver_003", "generating", "2024-01-15T12:00:00Z"⟩]
          ++ ⟨"ver_002", "completed", "2024-01-15T10:30:00Z"⟩
            :: [⟨"ver_001", "completed", "2024-01-14T08:00:00Z"⟩]) "ver_002"
      = [(⟨"ver_001", "completed", "2024-01-14T08:00:00Z"⟩ : Version)].find?
          (fun v => v.status == "completed") ∧
    ((runPipelineRest
        { inputArg := none, customName := none, outputDir := "/tmp", apiKey := "k",
          versionId := some "ver_999", listVersions := false }
        normalModeDeps "feat" "mEnUngV39k5" sampleVersions "ver_999" []).1
      = Except.ok
          { featureName := "feat",
            designDir := some ("/tmp" ++ "/designs/" ++ "feat" ++ "/v0-source"),
            versionId := some "ver_999", resolvedChatId := "mEnUngV39k5",
            totalFiles := [(⟨"app/page.tsx", 10, "GENERATING"⟩ : PFile)].length,
            customFileCount :=
              (⟨[⟨"app/page.tsx", 10, "GENERATING", true⟩], []⟩ : Classified).custom.length,
            defaultFileCount :=
              (⟨[⟨"app/page.tsx", 10, "GENERATING", true⟩], []⟩ : Classified).defaultFiles.length,
            warnings :=
              (⟨[], [⟨"app/page.tsx", "File content is a GENERATING placeholder"⟩]⟩
                : ValidationResult).warnings,
            listVersionsOutput := none } ∧
      (∃ rest, (runPipelineRest
          { inputArg := none, customName := none, outputDir := "/tmp", apiKey := "k",
            versionId := some "ver_999", listVersions := false }
          normalModeDeps "feat" "mEnUngV39k5" sampleVersions "ver_999" []).2 = [] ++ rest ∧
        ∀ e ∈ rest, ∀ m, e = Effect.consoleError m →
          jsStartsWith m "Try: --version " = false)) :=
  ⟨findNextOlderCompleted_spec.1 sampleVersions "ver_999" (by decide),
   findNextOlderCompleted_spec.2.1
     [⟨"ver_003", "generating", "2024-01-15T12:00:00Z"⟩]
     [⟨"ver_001", "completed", "2024-01-14T08:00:00Z"⟩]
     ⟨"ver_002", "completed", "2024-01-15T10:30:00Z"⟩ "ver_002" rfl (by decide) (by decide),
   findNextOlderCompleted_spec.2.2
     { inputArg := none, customName := none, outputDir := "/tmp", apiKey := "k",
       versionId := some "ver_999", listVersions := false }
     normalModeDeps "feat" "mEnUngV39k5" "ver_999" sampleVersions []
     [⟨"app/page.tsx", 10, "GENERATING"⟩] ["app/page.tsx"]
     ⟨[⟨"app/page.tsx", 10, "GENERATING", true⟩], []⟩
     ⟨[], [⟨"app/page.tsx", "File content is a GENERATING placeholder"⟩]⟩
     rfl rfl rfl rfl (by decide)⟩

end V0
